import Mathlib

/-!
# Verification of the PAT-AUTOMATION merge/aggregation pipeline

A shallow embedding of the core of `src/pdagent.py` — the duration codec
(`time_to_seconds`, `seconds_to_time`) and the merge/aggregate pipeline
(`merge_excel_files`, lines 78-130) — together with theorems settling the
specification's claims about it.

Modelling choices:

* A spreadsheet cell (a pandas cell) is a `Value`: missing (`None`/`NaN`),
  numeric (Python `int`/`float`, modelled as `ℚ`), or text.
* Python strings are Lean `String`s; the character-level operations the
  source uses (`str.split(':')`, `str.strip()`, `int(s)`, `str(n)`,
  f-string `{:02d}` padding) are modelled explicitly on `List Char` below.
  Deviations from Python, none of which the claims touch: `int(s)` also
  accepts underscore digit separators and non-ASCII decimal digits, and
  `str.strip()` also removes the rarer Unicode whitespace characters.
* Python `//` and `%` (floor division) are `Int`'s `/` and `%` (Euclidean
  division): the two agree for the positive divisors (3600, 60) used here.
* Python `int(x)` applied to a float truncates toward zero: `ratTrunc`.
-/

/-- A cell value: missing (`None`/`NaN`), numeric, or text. -/
inductive Value where
  | na : Value
  | num : ℚ → Value
  | str : String → Value
deriving DecidableEq

/-- ASCII whitespace, as stripped by `str.strip()` (line 37 `p.strip()`). -/
def isWs (c : Char) : Bool :=
  c == ' ' || c == '\t' || c == '\n' || c == '\r'

/-- Model of Python `str.strip()`: remove whitespace from both ends. -/
def pyStrip (l : List Char) : List Char :=
  ((l.dropWhile isWs).reverse.dropWhile isWs).reverse

/-- ASCII decimal digit (`'0'` = 48 … `'9'` = 57). -/
def isDig (c : Char) : Bool :=
  48 ≤ c.toNat && c.toNat ≤ 57

/-- The numeric value of a digit character. -/
def digVal (c : Char) : Nat := c.toNat - 48

/-- Parse a nonempty all-digit string as a natural number (base 10). -/
def parseNatDigits (l : List Char) : Option Nat :=
  if !l.isEmpty && l.all isDig then
    some (l.foldl (fun a c => 10 * a + digVal c) 0)
  else none

/-- Model of Python `int(s)` on an already-stripped string: an optional
sign followed by one or more decimal digits; anything else raises
(= `none` here, caught by the `except` at line 45). -/
def pyInt : List Char → Option Int
  | [] => none
  | c :: rest =>
    if c = '-' then (parseNatDigits rest).map (fun n => -(n : Int))
    else if c = '+' then (parseNatDigits rest).map (fun n => (n : Int))
    else (parseNatDigits (c :: rest)).map (fun n => (n : Int))

/-- Model of Python `str.split(sep)` for a one-character separator
(line 36 `time_val.split(':')`): `"".split(':') = [""]`, separators at
the ends produce empty parts. -/
def splitChars (sep : Char) : List Char → List (List Char)
  | [] => [[]]
  | c :: cs =>
    if c = sep then [] :: splitChars sep cs
    else
      match splitChars sep cs with
      | [] => [[c]]
      | p :: ps => (c :: p) :: ps

/-- Line 40: `h * 3600 + m * 60 + s`, provided all three parts parsed
(a failed `int(p)` raises into the bare `except`, = `none` here). -/
def addParts3 : Option Int → Option Int → Option Int → Option Int
  | some h, some m, some s => some (h * 3600 + m * 60 + s)
  | _, _, _ => none

/-- Line 43: `m * 60 + s`, provided both parts parsed. -/
def addParts2 : Option Int → Option Int → Option Int
  | some m, some s => some (m * 60 + s)
  | _, _ => none

/-- Lines 38-44: three parts are `H:MM:SS`, two are `MM:SS`, any other
part count falls through to `return 0` (= `none` here, the caller
substitutes 0). -/
def combineParts : List (List Char) → Option Int
  | [h, m, sec] => addParts3 (pyInt h) (pyInt m) (pyInt sec)
  | [m, sec] => addParts2 (pyInt m) (pyInt sec)
  | _ => none

/-- The string-parsing part of `time_to_seconds` (lines 36-43): split on
`':'`, strip each part, parse the parts as integers and combine. -/
def parseDuration (s : String) : Option Int :=
  combineParts ((splitChars ':' s.data).map pyStrip)

/-- Model of `time_to_seconds` (lines 29-46): `NaN`/`None` gives 0, a
numeric value passes through unchanged (`float(time_val)`), text is
parsed as a duration with every failure mode giving 0. -/
def time_to_seconds : Value → ℚ
  | .na => 0
  | .num q => q
  | .str s => ((parseDuration s).getD 0 : Int)

/-- Decimal digits of `n`, most significant first, with structural fuel
(`n < fuel`); models Python `str(n)` for naturals. -/
def natReprAux : Nat → Nat → List Char
  | 0, _ => []
  | fuel + 1, n =>
    if n < 10 then [Char.ofNat (48 + n)]
    else natReprAux fuel (n / 10) ++ [Char.ofNat (48 + n % 10)]

/-- Decimal representation of a natural number, as characters. -/
def natRepr (n : Nat) : List Char := natReprAux (n + 1) n

/-- Model of Python `str(i)` for integers: optional `'-'`, then digits. -/
def intRepr (i : Int) : List Char :=
  if i < 0 then '-' :: natRepr i.natAbs else natRepr i.natAbs

/-- Model of the f-string `{:02d}` (line 57): pad to width 2 with `'0'`.
Only single-digit non-negative numbers are shorter than 2 characters. -/
def pad2 (i : Int) : List Char :=
  if 0 ≤ i ∧ i < 10 then '0' :: intRepr i else intRepr i

/-- Model of Python `int(x)` on a float: truncate toward zero (line 52).
`Rat.num.tdiv Rat.den` is exactly that truncation. -/
def ratTrunc (q : ℚ) : Int := q.num.tdiv q.den

/-- Model of `seconds_to_time` (lines 49-57): `NaN` prints as
`"0:00:00"`; otherwise truncate to an integer and format as
`f"{hours}:{minutes:02d}:{seconds:02d}"` with `//`/`%` arithmetic. -/
def seconds_to_time : Option ℚ → String
  | none => "0:00:00"
  | some q =>
    let n : Int := ratTrunc q
    let hours := n / 3600
    let r := n % 3600
    let minutes := r / 60
    let secs := r % 60
    String.mk (intRepr hours ++ ':' :: (pad2 minutes ++ ':' :: pad2 secs))

/-! ## Character and digit facts -/

theorem digit_char_facts : ∀ d < 10, isDig (Char.ofNat (48 + d)) = true ∧
    digVal (Char.ofNat (48 + d)) = d := by decide

theorem isDig_toNat {c : Char} (h : isDig c = true) :
    48 ≤ c.toNat ∧ c.toNat ≤ 57 := by
  simp only [isDig, Bool.and_eq_true, decide_eq_true_eq] at h
  exact h

theorem isDig_ne_colon {c : Char} (h : isDig c = true) : c ≠ ':' := by
  intro he; rw [he] at h; exact absurd h (by decide)

theorem isDig_ne_minus {c : Char} (h : isDig c = true) : c ≠ '-' := by
  intro he; rw [he] at h; exact absurd h (by decide)

theorem isDig_ne_plus {c : Char} (h : isDig c = true) : c ≠ '+' := by
  intro he; rw [he] at h; exact absurd h (by decide)

theorem isDig_not_ws {c : Char} (h : isDig c = true) : isWs c = false := by
  rcases hw : isWs c with _ | _
  · rfl
  · simp only [isWs, Bool.or_eq_true, beq_iff_eq] at hw
    rcases hw with ((hw | hw) | hw) | hw <;> rw [hw] at h <;>
      exact absurd h (by decide)

/-! ## Decimal printing: `natReprAux` produces parseable digits -/

theorem natReprAux_ne_nil : ∀ fuel n, n < fuel → natReprAux fuel n ≠ [] := by
  intro fuel
  induction fuel with
  | zero => intro n h; omega
  | succ f ih =>
    intro n _
    by_cases h10 : n < 10
    · simp [natReprAux, h10]
    · simp only [natReprAux, if_neg h10]
      exact List.append_ne_nil_of_right_ne_nil _ (by simp)

theorem natReprAux_all_dig : ∀ fuel n, n < fuel →
    ∀ c ∈ natReprAux fuel n, isDig c = true := by
  intro fuel
  induction fuel with
  | zero => intro n h; omega
  | succ f ih =>
    intro n hn c hc
    by_cases h10 : n < 10
    · simp only [natReprAux, if_pos h10, List.mem_singleton] at hc
      rw [hc]; exact (digit_char_facts n h10).1
    · simp only [natReprAux, if_neg h10, List.mem_append,
        List.mem_singleton] at hc
      rcases hc with hc | hc
      · have hlt : n / 10 < f := by
          have := Nat.div_lt_self (by omega : 0 < n) (by omega : 1 < 10)
          omega
        exact ih (n / 10) hlt c hc
      · rw [hc]; exact (digit_char_facts (n % 10) (by omega)).1

theorem natReprAux_foldl : ∀ fuel n a, n < fuel →
    (natReprAux fuel n).foldl (fun a c => 10 * a + digVal c) a =
      a * 10 ^ (natReprAux fuel n).length + n := by
  intro fuel
  induction fuel with
  | zero => intro n a h; omega
  | succ f ih =>
    intro n a hn
    by_cases h10 : n < 10
    · simp only [natReprAux, if_pos h10, List.foldl_cons, List.foldl_nil,
        List.length_singleton, pow_one]
      rw [(digit_char_facts n h10).2]
      omega
    · have hlt : n / 10 < f := by
        have := Nat.div_lt_self (by omega : 0 < n) (by omega : 1 < 10)
        omega
      simp only [natReprAux, if_neg h10, List.foldl_append, List.foldl_cons,
        List.foldl_nil, List.length_append, List.length_singleton]
      rw [ih (n / 10) a hlt, (digit_char_facts (n % 10) (by omega)).2,
        pow_succ]
      ring_nf
      omega

theorem natRepr_ne_nil (n : Nat) : natRepr n ≠ [] :=
  natReprAux_ne_nil (n + 1) n (Nat.lt_succ_self n)

theorem natRepr_all_dig (n : Nat) : ∀ c ∈ natRepr n, isDig c = true :=
  natReprAux_all_dig (n + 1) n (Nat.lt_succ_self n)

theorem parseNatDigits_natRepr (n : Nat) : parseNatDigits (natRepr n) = some n := by
  have hne := natRepr_ne_nil n
  have hdig := natRepr_all_dig n
  simp only [parseNatDigits, List.all_eq_true]
  rw [if_pos]
  · rw [show natRepr n = natReprAux (n + 1) n from rfl,
      natReprAux_foldl (n + 1) n 0 (Nat.lt_succ_self n)]
    simp
  · simp only [Bool.and_eq_true, Bool.not_eq_true', List.isEmpty_eq_false,
      List.all_eq_true]
    exact ⟨hne, hdig⟩

theorem parseNatDigits_zero_cons (n : Nat) :
    parseNatDigits ('0' :: natRepr n) = some n := by
  have hne := natRepr_ne_nil n
  have hdig := natRepr_all_dig n
  simp only [parseNatDigits]
  rw [if_pos]
  · simp only [List.foldl_cons]
    have h0 : (10 * 0 + digVal '0') = 0 := by decide
    rw [h0, show natRepr n = natReprAux (n + 1) n from rfl,
      natReprAux_foldl (n + 1) n 0 (Nat.lt_succ_self n)]
    simp
  · simp only [Bool.and_eq_true, Bool.not_eq_true', List.isEmpty_eq_false,
      List.all_eq_true, List.mem_cons]
    refine ⟨by simp, fun c hc => ?_⟩
    rcases hc with hc | hc
    · rw [hc]; decide
    · exact hdig c hc

/-! ## Printed numbers parse back: `pyInt` inverts `intRepr`/`pad2` -/

theorem intRepr_chars (i : Int) : ∀ c ∈ intRepr i, isDig c = true ∨ c = '-' := by
  intro c hc
  unfold intRepr at hc
  by_cases hi : i < 0
  · rw [if_pos hi] at hc
    rcases List.mem_cons.mp hc with hc | hc
    · exact Or.inr hc
    · exact Or.inl (natRepr_all_dig _ c hc)
  · rw [if_neg hi] at hc
    exact Or.inl (natRepr_all_dig _ c hc)

theorem pad2_chars (i : Int) : ∀ c ∈ pad2 i, isDig c = true ∨ c = '-' := by
  intro c hc
  unfold pad2 at hc
  by_cases hi : 0 ≤ i ∧ i < 10
  · rw [if_pos hi] at hc
    rcases List.mem_cons.mp hc with hc | hc
    · left; rw [hc]; decide
    · exact intRepr_chars i c hc
  · rw [if_neg hi] at hc
    exact intRepr_chars i c hc

theorem repr_char_ne_colon {c : Char} (h : isDig c = true ∨ c = '-') :
    c ≠ ':' := by
  rcases h with h | h
  · exact isDig_ne_colon h
  · rw [h]; decide

theorem repr_char_not_ws {c : Char} (h : isDig c = true ∨ c = '-') :
    isWs c = false := by
  rcases h with h | h
  · exact isDig_not_ws h
  · rw [h]; decide

theorem dropWhile_id_of_not {l : List Char} (h : ∀ c ∈ l, isWs c = false) :
    l.dropWhile isWs = l := by
  cases l with
  | nil => rfl
  | cons c cs => simp [List.dropWhile_cons, h c (List.mem_cons_self c cs)]

theorem pyStrip_id {l : List Char} (h : ∀ c ∈ l, isWs c = false) :
    pyStrip l = l := by
  unfold pyStrip
  rw [dropWhile_id_of_not h,
    dropWhile_id_of_not (fun c hc => h c (List.mem_reverse.mp hc))]
  exact List.reverse_reverse l

theorem pyInt_natRepr (n : Nat) : pyInt (natRepr n) = some (n : Int) := by
  obtain ⟨c, cs, hcons⟩ := List.exists_cons_of_ne_nil (natRepr_ne_nil n)
  have hd : isDig c = true :=
    natRepr_all_dig n c (by rw [hcons]; exact List.mem_cons_self c cs)
  rw [hcons]
  simp only [pyInt]
  rw [if_neg (isDig_ne_minus hd), if_neg (isDig_ne_plus hd), ← hcons,
    parseNatDigits_natRepr]
  rfl

theorem pyInt_intRepr (i : Int) : pyInt (intRepr i) = some i := by
  unfold intRepr
  by_cases hi : i < 0
  · rw [if_pos hi]
    simp only [pyInt, if_pos rfl]
    rw [parseNatDigits_natRepr]
    show some (-((i.natAbs : Nat) : Int)) = some i
    exact congrArg some (by omega)
  · rw [if_neg hi, pyInt_natRepr]
    congr 1
    omega

theorem pyInt_pad2 (i : Int) (h : 0 ≤ i) : pyInt (pad2 i) = some i := by
  unfold pad2
  by_cases h10 : 0 ≤ i ∧ i < 10
  · rw [if_pos h10]
    unfold intRepr
    rw [if_neg (by omega : ¬ i < 0)]
    simp only [pyInt]
    rw [if_neg (by decide : ¬ ('0' = '-')), if_neg (by decide : ¬ ('0' = '+')),
      parseNatDigits_zero_cons]
    show some (((i.natAbs : Nat) : Int)) = some i
    exact congrArg some (by omega)
  · rw [if_neg h10, pyInt_intRepr]

/-! ## `splitChars` recovers the three printed parts -/

theorem splitChars_no_sep (sep : Char) : ∀ l, (∀ c ∈ l, c ≠ sep) →
    splitChars sep l = [l] := by
  intro l
  induction l with
  | nil => intro _; rfl
  | cons c cs ih =>
    intro h
    have hc : c ≠ sep := h c (List.mem_cons_self c cs)
    simp only [splitChars, if_neg hc]
    rw [ih (fun x hx => h x (List.mem_cons_of_mem c hx))]

theorem splitChars_append (sep : Char) : ∀ a b, (∀ c ∈ a, c ≠ sep) →
    splitChars sep (a ++ sep :: b) = a :: splitChars sep b := by
  intro a
  induction a with
  | nil =>
    intro b _
    show splitChars sep (sep :: b) = [] :: splitChars sep b
    simp [splitChars]
  | cons c a' ih =>
    intro b h
    have hc : c ≠ sep := h c (List.mem_cons_self c a')
    simp only [List.cons_append, splitChars, if_neg hc, List.append_eq]
    rw [ih b (fun x hx => h x (List.mem_cons_of_mem c hx))]

/-! ## The formatted string parses back to the formatted integer -/

theorem parseDuration_seconds_to_time (q : ℚ) :
    parseDuration (seconds_to_time (some q)) = some (ratTrunc q) := by
  set n := ratTrunc q with hn
  have cA : ∀ c ∈ intRepr (n / 3600), c ≠ ':' :=
    fun c hc => repr_char_ne_colon (intRepr_chars _ c hc)
  have cB : ∀ c ∈ pad2 (n % 3600 / 60), c ≠ ':' :=
    fun c hc => repr_char_ne_colon (pad2_chars _ c hc)
  have cC : ∀ c ∈ pad2 (n % 3600 % 60), c ≠ ':' :=
    fun c hc => repr_char_ne_colon (pad2_chars _ c hc)
  have wA : ∀ c ∈ intRepr (n / 3600), isWs c = false :=
    fun c hc => repr_char_not_ws (intRepr_chars _ c hc)
  have wB : ∀ c ∈ pad2 (n % 3600 / 60), isWs c = false :=
    fun c hc => repr_char_not_ws (pad2_chars _ c hc)
  have wC : ∀ c ∈ pad2 (n % 3600 % 60), isWs c = false :=
    fun c hc => repr_char_not_ws (pad2_chars _ c hc)
  have hsplit : (splitChars ':' (seconds_to_time (some q)).data).map pyStrip =
      [intRepr (n / 3600), pad2 (n % 3600 / 60), pad2 (n % 3600 % 60)] := by
    have hdata : (seconds_to_time (some q)).data =
        intRepr (n / 3600) ++ ':' ::
          (pad2 (n % 3600 / 60) ++ ':' :: pad2 (n % 3600 % 60)) := rfl
    rw [hdata, splitChars_append ':' _ _ cA, splitChars_append ':' _ _ cB,
      splitChars_no_sep ':' _ cC]
    simp only [List.map_cons, List.map_nil]
    rw [pyStrip_id wA, pyStrip_id wB, pyStrip_id wC]
  simp only [parseDuration, hsplit, combineParts]
  rw [pyInt_intRepr, pyInt_pad2 _ (by omega), pyInt_pad2 _ (by omega)]
  simp only [addParts3]
  exact congrArg some (by omega)

/-! ## `ratTrunc` and `seconds_to_time` basics -/

theorem seconds_to_time_some (q : ℚ) :
    seconds_to_time (some q) =
      String.mk (intRepr (ratTrunc q / 3600) ++ ':' ::
        (pad2 (ratTrunc q % 3600 / 60) ++ ':' :: pad2 (ratTrunc q % 3600 % 60))) := rfl

theorem ratTrunc_intCast (n : Int) : ratTrunc ((n : Int) : ℚ) = n := by
  simp [ratTrunc, Rat.num_intCast, Rat.den_intCast]

theorem ratTrunc_natCast (n : Nat) : ratTrunc ((n : Nat) : ℚ) = (n : Int) := by
  rw [show ((n : Nat) : ℚ) = ((n : Int) : ℚ) by push_cast; ring]
  exact ratTrunc_intCast n

theorem ratTrunc_eq_floor (q : ℚ) (h : 0 ≤ q) : ratTrunc q = ⌊q⌋ := by
  rw [Rat.floor_def]
  unfold ratTrunc
  obtain ⟨k, hk⟩ := Int.eq_ofNat_of_zero_le (Rat.num_nonneg.mpr h)
  rw [hk]
  rfl

theorem intRepr_natCast (k : Nat) : intRepr ((k : Nat) : Int) = natRepr k := by
  unfold intRepr
  rw [if_neg (by omega : ¬ ((k : Nat) : Int) < 0)]
  congr 1

/-! ## Lengths of printed parts -/

theorem natReprAux_length_one (fuel n : Nat) (hf : n < fuel) (h : n < 10) :
    (natReprAux fuel n).length = 1 := by
  cases fuel with
  | zero => omega
  | succ f => simp [natReprAux, if_pos h]

theorem natRepr_length_two (n : Nat) (h1 : 10 ≤ n) (h2 : n < 100) :
    (natRepr n).length = 2 := by
  show (natReprAux (n + 1) n).length = 2
  rw [show natReprAux (n + 1) n =
      natReprAux n (n / 10) ++ [Char.ofNat (48 + n % 10)] by
    simp [natReprAux, if_neg (by omega : ¬ n < 10)]]
  rw [List.length_append,
    natReprAux_length_one n (n / 10) (by omega) (by omega)]
  rfl

theorem pad2_length_two (i : Int) (h0 : 0 ≤ i) (h : i < 100) :
    (pad2 i).length = 2 := by
  unfold pad2
  by_cases h10 : 0 ≤ i ∧ i < 10
  · rw [if_pos h10]
    unfold intRepr
    rw [if_neg (by omega : ¬ i < 0)]
    rw [List.length_cons,
      show natRepr i.natAbs = natReprAux (i.natAbs + 1) i.natAbs from rfl,
      natReprAux_length_one (i.natAbs + 1) i.natAbs (by omega) (by omega)]
  · rw [if_neg h10]
    unfold intRepr
    rw [if_neg (by omega : ¬ i < 0)]
    exact natRepr_length_two i.natAbs (by omega) (by omega)

/-! ## Claim C3: decode/encode round trip -/

/-- C3: for every valid duration string `s` (in `H:MM:SS` or `MM:SS` form,
i.e. one that `parseDuration` accepts), decoding, re-encoding as text and
decoding again yields the same canonical seconds value. -/
theorem C3_roundtrip (s : String)
    (hvalid : (parseDuration s).isSome = true) :
    time_to_seconds
        (.str (seconds_to_time (some (time_to_seconds (.str s))))) =
      time_to_seconds (.str s) := by
  obtain ⟨n, hn⟩ := Option.isSome_iff_exists.mp hvalid
  have h1 : time_to_seconds (.str s) = ((n : Int) : ℚ) := by
    show ((parseDuration s).getD 0 : Int) = ((n : Int) : ℚ)
    rw [hn]
    rfl
  rw [h1]
  show ((parseDuration (seconds_to_time (some ((n : Int) : ℚ)))).getD 0 : Int) =
    ((n : Int) : ℚ)
  rw [parseDuration_seconds_to_time, ratTrunc_intCast]
  rfl

/-- C3 witness: the round trip at the concrete valid string `"1:02:03"`. -/
theorem C3_roundtrip_witness :
    (parseDuration "1:02:03").isSome = true ∧
    time_to_seconds
        (.str (seconds_to_time (some (time_to_seconds (.str "1:02:03"))))) =
      time_to_seconds (.str "1:02:03") :=
  ⟨by decide, C3_roundtrip "1:02:03" (by decide)⟩

/-! ## Claim C7: decode is total, failure yields 0 -/

/-- C7: `time_to_seconds` returns without error on every input: a missing
value (`None`/`NaN`), the empty string and `"garbage"` all decode to 0,
and more generally every string the duration grammar rejects (parse
failure or wrong part count) decodes to 0. -/
theorem C7_decode_total :
    time_to_seconds .na = 0 ∧ time_to_seconds (.str "") = 0 ∧
    time_to_seconds (.str "garbage") = 0 ∧
    ∀ s : String, parseDuration s = none → time_to_seconds (.str s) = 0 := by
  refine ⟨rfl, by decide, by decide, fun s hs => ?_⟩
  show (((parseDuration s).getD 0 : Int) : ℚ) = 0
  rw [hs]
  rfl

/-- C7 witness: the general failure clause applied at `"12:xy"`. -/
theorem C7_decode_total_witness :
    parseDuration "12:xy" = none ∧ time_to_seconds (.str "12:xy") = 0 :=
  ⟨by decide, C7_decode_total.2.2.2 "12:xy" (by decide)⟩

/-! ## Claim C8: the text encoding's format -/

/-- C8: `seconds_to_time` formats every non-negative integer seconds value
as `H:MM:SS` — some decomposition `n = 3600*h + 60*m + s` with `m, s < 60`,
minutes and seconds zero-padded to exactly two characters, hours printed
unpadded via `natRepr` and unbounded (`h` is the full quotient, not wrapped
at 24, as `90000 ↦ "25:00:00"` shows); a missing input formats as
`"0:00:00"`. -/
theorem C8_encode_format :
    (∀ n : ℕ, ∃ h m s : ℕ, n = 3600 * h + 60 * m + s ∧ m < 60 ∧ s < 60 ∧
      (pad2 (m : Int)).length = 2 ∧ (pad2 (s : Int)).length = 2 ∧
      seconds_to_time (some (n : ℚ)) =
        String.mk (natRepr h ++ ':' ::
          (pad2 (m : Int) ++ ':' :: pad2 (s : Int)))) ∧
    seconds_to_time (some 0) = "0:00:00" ∧
    seconds_to_time (some 3661) = "1:01:01" ∧
    seconds_to_time (some 90000) = "25:00:00" ∧
    seconds_to_time none = "0:00:00" := by
  refine ⟨fun n => ?_, by decide, by decide, by decide, rfl⟩
  refine ⟨n / 3600, n % 3600 / 60, n % 60, by omega, by omega, by omega,
    pad2_length_two _ (by omega) (by omega),
    pad2_length_two _ (by omega) (by omega), ?_⟩
  rw [seconds_to_time_some, ratTrunc_natCast n,
    show (n : Int) / 3600 = ((n / 3600 : Nat) : Int) by omega,
    show (n : Int) % 3600 / 60 = ((n % 3600 / 60 : Nat) : Int) by omega,
    show (n : Int) % 3600 % 60 = ((n % 60 : Nat) : Int) by omega,
    intRepr_natCast]

/-! ## Claim C10: fractional seconds are truncated before formatting -/

/-- C10: for every non-negative rational seconds value `q` (the model of
the pipeline's floats), `seconds_to_time` formats `q` exactly as it
formats `⌊q⌋`: the fractional part is discarded by `int(seconds)`
(truncation toward zero, which is the floor for non-negative input), not
rounded. -/
theorem C10_truncates (q : ℚ) (h : 0 ≤ q) :
    seconds_to_time (some q) = seconds_to_time (some ((⌊q⌋ : Int) : ℚ)) := by
  rw [seconds_to_time_some, seconds_to_time_some, ratTrunc_eq_floor q h,
    ratTrunc_intCast]

/-- C10 witness: `5/2` seconds formats as `⌊5/2⌋ = 2` seconds does. -/
theorem C10_truncates_witness :
    (0 : ℚ) ≤ mkRat 5 2 ∧
    seconds_to_time (some (mkRat 5 2)) =
      seconds_to_time (some ((⌊mkRat 5 2⌋ : Int) : ℚ)) :=
  ⟨by decide, C10_truncates (mkRat 5 2) (by decide)⟩

/-! ## Claim C5: sign and integrality of decoded values -/

theorem splitChars_ne_nil (sep : Char) : ∀ l, splitChars sep l ≠ [] := by
  intro l
  induction l with
  | nil => simp [splitChars]
  | cons c cs ih =>
    by_cases h : c = sep
    · simp [splitChars, h]
    · simp only [splitChars, if_neg h]
      cases hs : splitChars sep cs with
      | nil => simp
      | cons p ps => simp

theorem mem_of_mem_splitChars (sep : Char) :
    ∀ l p, p ∈ splitChars sep l → ∀ c ∈ p, c ∈ l := by
  intro l
  induction l with
  | nil =>
    intro p hp c hc
    simp only [splitChars, List.mem_singleton] at hp
    subst hp
    simp at hc
  | cons d ds ih =>
    intro p hp c hc
    by_cases hd : d = sep
    · simp only [splitChars, if_pos hd] at hp
      rcases List.mem_cons.mp hp with hp | hp
      · subst hp; simp at hc
      · exact List.mem_cons_of_mem d (ih p hp c hc)
    · simp only [splitChars, if_neg hd] at hp
      cases hs : splitChars sep ds with
      | nil => exact absurd hs (splitChars_ne_nil sep ds)
      | cons q qs =>
        simp only [hs] at hp
        rcases List.mem_cons.mp hp with hp | hp
        · subst hp
          rcases List.mem_cons.mp hc with hc | hc
          · subst hc; exact List.mem_cons_self c ds
          · have hq : q ∈ splitChars sep ds := by rw [hs]; exact List.mem_cons_self q qs
            exact List.mem_cons_of_mem d (ih q hq c hc)
        · have hq : p ∈ splitChars sep ds := by rw [hs]; exact List.mem_cons_of_mem q hp
          exact List.mem_cons_of_mem d (ih p hq c hc)

theorem mem_pyStrip {l : List Char} : ∀ c ∈ pyStrip l, c ∈ l := by
  intro c hc
  unfold pyStrip at hc
  rw [List.mem_reverse] at hc
  have h1 : c ∈ (l.dropWhile isWs).reverse := (List.dropWhile_sublist _).subset hc
  rw [List.mem_reverse] at h1
  exact (List.dropWhile_sublist _).subset h1

theorem pyInt_nonneg {l : List Char} {k : Int} (h : pyInt l = some k)
    (hm : '-' ∉ l) : 0 ≤ k := by
  cases l with
  | nil => simp [pyInt] at h
  | cons c rest =>
    simp only [pyInt] at h
    by_cases hc : c = '-'
    · exact absurd (hc ▸ List.mem_cons_self c rest) hm
    · rw [if_neg hc] at h
      by_cases hp : c = '+'
      · rw [if_pos hp] at h
        rcases hparse : parseNatDigits rest with _ | n <;> rw [hparse] at h
        · simp at h
        · simp at h
          omega
      · rw [if_neg hp] at h
        rcases hparse : parseNatDigits (c :: rest) with _ | n <;> rw [hparse] at h
        · simp at h
        · simp at h
          omega

theorem parseDuration_nonneg (s : String)
    (hs : ∀ c ∈ s.data, c ≠ '-') :
    ∀ k, parseDuration s = some k → 0 ≤ k := by
  intro k hp
  have hnp : ∀ p ∈ (splitChars ':' s.data).map pyStrip, '-' ∉ p := by
    intro p hp' hmem
    obtain ⟨p0, hp0, hstrip⟩ := List.mem_map.mp hp'
    exact hs '-'
      (mem_of_mem_splitChars ':' s.data p0 hp0 '-' (mem_pyStrip '-' (hstrip ▸ hmem)))
      rfl
  unfold parseDuration at hp
  rcases hparts : (splitChars ':' s.data).map pyStrip with
    _ | ⟨a, _ | ⟨b, _ | ⟨c, rest⟩⟩⟩ <;> rw [hparts] at hp
  · simp [combineParts] at hp
  · simp [combineParts] at hp
  · -- two parts
    have ha : '-' ∉ a := hnp a (by rw [hparts]; simp)
    have hb : '-' ∉ b := hnp b (by rw [hparts]; simp)
    simp only [combineParts] at hp
    rcases hia : pyInt a with _ | x <;> rw [hia] at hp
    · simp [addParts2] at hp
    · rcases hib : pyInt b with _ | y <;> rw [hib] at hp
      · simp [addParts2] at hp
      · simp only [addParts2, Option.some_inj] at hp
        have := pyInt_nonneg hia ha
        have := pyInt_nonneg hib hb
        omega
  · cases rest with
    | nil =>
      -- three parts
      have ha : '-' ∉ a := hnp a (by rw [hparts]; simp)
      have hb : '-' ∉ b := hnp b (by rw [hparts]; simp)
      have hc : '-' ∉ c := hnp c (by rw [hparts]; simp)
      simp only [combineParts] at hp
      rcases hia : pyInt a with _ | x <;> rw [hia] at hp
      · simp [addParts3] at hp
      · rcases hib : pyInt b with _ | y <;> rw [hib] at hp
        · simp [addParts3] at hp
        · rcases hic : pyInt c with _ | z <;> rw [hic] at hp
          · simp [addParts3] at hp
          · simp only [addParts3, Option.some_inj] at hp
            have := pyInt_nonneg hia ha
            have := pyInt_nonneg hib hb
            have := pyInt_nonneg hic hc
            omega
    | cons d rest' => simp [combineParts] at hp

/-- C5 counterexample: `time_to_seconds` does not always return a
non-negative integer — a numeric cell passes through unchanged, so the
numeric input `-5` decodes to a negative value and the numeric input
`1/2` decodes to a non-integer. -/
theorem C5_counterexample :
    time_to_seconds (Value.num (-5)) < 0 ∧
    (time_to_seconds (Value.num (mkRat 1 2))).den ≠ 1 := by decide

/-- C5 amended: numeric inputs pass through `time_to_seconds` unchanged
(so they may be negative or fractional); a missing input decodes to 0;
and every string input containing no `'-'` character decodes to a
non-negative integer (a natural number of seconds). -/
theorem C5_decode_sign (q : ℚ) (s : String)
    (hs : ∀ c ∈ s.data, c ≠ '-') :
    time_to_seconds (.num q) = q ∧ time_to_seconds .na = 0 ∧
    ∃ n : ℕ, time_to_seconds (.str s) = (n : ℚ) := by
  refine ⟨rfl, rfl, ?_⟩
  rcases hp : parseDuration s with _ | k
  · exact ⟨0, by show (((parseDuration s).getD 0 : Int) : ℚ) = _; rw [hp]; rfl⟩
  · refine ⟨k.toNat, ?_⟩
    have hk : 0 ≤ k := parseDuration_nonneg s hs k hp
    show (((parseDuration s).getD 0 : Int) : ℚ) = (k.toNat : ℚ)
    rw [hp]
    show ((k : Int) : ℚ) = (k.toNat : ℚ)
    have h2 : ((k.toNat : Nat) : Int) = k := Int.toNat_of_nonneg hk
    calc ((k : Int) : ℚ) = (((k.toNat : Nat) : Int) : ℚ) := by rw [h2]
      _ = ((k.toNat : Nat) : ℚ) := by push_cast; ring

/-- C5 witness: the amended claim at the minus-free string `"1:02"`. -/
theorem C5_decode_sign_witness :
    (∀ c ∈ "1:02".data, c ≠ '-') ∧
    (time_to_seconds (.num 7) = 7 ∧ time_to_seconds .na = 0 ∧
      ∃ n : ℕ, time_to_seconds (.str "1:02") = (n : ℚ)) :=
  ⟨by decide, C5_decode_sign 7 "1:02" (by decide)⟩

/-! ## The merge/aggregate pipeline (lines 78-130)

The model starts from the concatenated frame (`merged_df` at line 79):
reading the uploaded workbooks and `pd.concat` over the column union are
the external spreadsheet-decoding collaborator's job. A record is a total
assignment of cell values to column names — after `pd.concat` every row
holds a cell (possibly `NaN`) for every unioned column — and the frame's
column list governs which columns are observable downstream. -/

/-- A record: a total assignment of cell values to column names. -/
def Row : Type := String → Value

/-- A dataframe: an ordered column list and an ordered list of records. -/
structure DF where
  cols : List String
  rows : List Row

/-- The identity column (line 86). -/
def identityCol : String := "Collector Name"

/-- Line 82: columns dropped if present. -/
def columns_to_drop : List String := ["SNo.", "Total Calls", "Pause Count"]

/-- Lines 92-95: the eight duration columns, in their fixed order. -/
def time_columns : List String :=
  ["Spent Time", "Talk Time", "AVG Talk Time", "Wait Time",
   "Average Wait Time", "Write Time", "AVG Write Time", "Pause Time"]

/-- Line 83: drop the deny-listed columns (rows keep their cells; the
column list governs what is observable downstream). -/
def dropCols (df : DF) : DF :=
  ⟨df.cols.filter (fun c => decide (c ∉ columns_to_drop)), df.rows⟩

/-- Line 87's row predicate: `notna & (str.strip() != '')`. A numeric
cell is kept: pandas' `.str` accessor maps non-strings to `NaN`, and
`NaN != ''` evaluates to `True`. -/
def validIdentity : Value → Bool
  | .na => false
  | .num _ => true
  | .str s => !(pyStrip s.data).isEmpty

/-- Line 87: remove the rows whose identity cell is blank. -/
def filteredRows (df : DF) : List Row :=
  (dropCols df).rows.filter (fun r => validIdentity (r identityCol))

/-- Line 98: the declared duration columns actually present. -/
def presentTcols (df : DF) : List String :=
  time_columns.filter (fun c => decide (c ∈ (dropCols df).cols))

/-- Lines 101-102: apply `time_to_seconds` to every cell of every
present duration column. -/
def convertRow (tcols : List String) (r : Row) : Row :=
  fun c => if c ∈ tcols then .num (time_to_seconds (r c)) else r c

def convertedRows (df : DF) : List Row :=
  (filteredRows df).map (convertRow (presentTcols df))

/-- Line 110: the non-duration, non-identity columns, in column order. -/
def otherColsOf (df : DF) : List String :=
  (dropCols df).cols.filter
    (fun c => decide (c ∉ presentTcols df ∧ c ≠ identityCol))

/-- The key of a record: its identity-column value. -/
def keyOf (r : Row) : Value := r identityCol

/-- Distinct values in first-appearance order. -/
def firstOccurrences : List Value → List Value
  | [] => []
  | k :: ks => k :: (firstOccurrences ks).filter (fun v => decide (v ≠ k))

/-- Code-point lexicographic comparison, as Python compares strings. -/
def charListLe : List Char → List Char → Bool
  | [], _ => true
  | _ :: _, [] => false
  | a :: as, b :: bs =>
    if a < b then true else if b < a then false else charListLe as bs

/-- The ordering pandas applies to group keys (`groupby` defaults to
`sort=True`): numbers by value, strings lexicographically by code point.
pandas raises a `TypeError` on a mixed string/number key set; the model
totalizes it by putting missing first and numbers before strings, which
no claim depends on. -/
def valueLe : Value → Value → Bool
  | .na, _ => true
  | .num _, .na => false
  | .num a, .num b => decide (a ≤ b)
  | .num _, .str _ => true
  | .str _, .na => false
  | .str _, .num _ => false
  | .str a, .str b => charListLe a.data b.data

/-- Line 117's group keys: the distinct identity values, sorted
(pandas `groupby` defaults to `sort=True`). -/
def aggKeys (df : DF) : List Value :=
  List.insertionSort (fun a b => valueLe a b = true)
    (firstOccurrences ((convertedRows df).map keyOf))

/-- The records of the group keyed `k` (after conversion). -/
def groupRowsFor (df : DF) (k : Value) : List Row :=
  (convertedRows df).filter (fun r => decide (keyOf r = k))

/-- The numeric content of a converted duration cell. `agg('sum')` sums
the group's floats; a `NaN` (impossible after conversion, which is
total) would be skipped, i.e. counted as 0. -/
def toQ : Value → ℚ
  | .num q => q
  | _ => 0

/-- `agg('first')` for one column of one group: pandas' `first` takes
the first non-null value, `NaN` when every value is null. -/
def firstNonNa (l : List Value) : Value :=
  (l.find? (fun v => decide (v ≠ Value.na))).getD .na

/-- Lines 104-117: the aggregated record of the group keyed `k`:
identity `k`, summed seconds for each duration column, first non-null
value for every other column, nothing else observable. -/
def aggRow (df : DF) (k : Value) : Row :=
  fun c =>
    if c = identityCol then k
    else if c ∈ presentTcols df then
      .num (((groupRowsFor df k).map (fun r => toQ (r c))).sum)
    else if c ∈ otherColsOf df then
      firstNonNa ((groupRowsFor df k).map (fun r => r c))
    else .na

def aggRowsList (df : DF) : List Row := (aggKeys df).map (aggRow df)

/-- Lines 119-127: the `'Average'` summary record: for each duration
column the mean of the aggregated column (`NaN` over zero groups, as
pandas' mean of an empty series), `None` for every other column. -/
def avgRowOf (df : DF) : Row :=
  fun c =>
    if c = identityCol then .str "Average"
    else if c ∈ presentTcols df then
      if (aggKeys df).length = 0 then .na
      else .num ((((aggRowsList df).map (fun r => toQ (r c))).sum) /
        ((aggKeys df).length : ℚ))
    else .na

/-- Lines 117-128: group, aggregate and append the average record. The
output column order is the `reset_index()` order: identity first, then
the `agg_dict` insertion order (duration columns, then the others). -/
def aggregate (df : DF) : DF :=
  ⟨identityCol :: (presentTcols df ++ otherColsOf df),
    aggRowsList df ++ [avgRowOf df]⟩

/-- Model of `merge_excel_files` (lines 78-130) from the concatenated
frame on: drop the deny-listed columns; fail if the identity column is
missing (line 89); filter blank identities; convert duration cells to
seconds; if `agg_dict` would be empty (line 114: no duration and no
other columns) return the frame as is, otherwise aggregate and append
the average record. -/
def merge_excel_files (df : DF) : Except String DF :=
  if identityCol ∈ (dropCols df).cols then
    if presentTcols df = [] ∧ otherColsOf df = [] then
      Except.ok ⟨(dropCols df).cols, convertedRows df⟩
    else Except.ok (aggregate df)
  else Except.error "Collector Name column not found in the data."

/-- The merged frame (`⟨[], []⟩` is never reached when the identity
column is present). -/
def getOk : Except String DF → DF
  | .ok df => df
  | .error _ => ⟨[], []⟩

/-- The records of the merged frame. -/
def mergeRows (df : DF) : List Row := (getOk (merge_excel_files df)).rows

/-- The all-missing record, used as the out-of-range default. -/
def emptyRow : Row := fun _ => .na

/-- The `i`-th record of the merged frame. -/
def rowAt (df : DF) (i : Nat) : Row := (mergeRows df).getD i emptyRow

/-! ## Input-level views of a group, used in the claim statements -/

/-- The filtered input records of the group keyed `k`, before duration
conversion. -/
def inputGroup (df : DF) (k : Value) : List Row :=
  (filteredRows df).filter (fun r => decide (keyOf r = k))

/-- The group's summed canonical durations for column `c`, computed
directly from the filtered input records. -/
def inputGroupSum (df : DF) (k : Value) (c : String) : ℚ :=
  ((inputGroup df k).map (fun r => time_to_seconds (r c))).sum

/-! ## Column-set facts -/

theorem mem_dropCols {df : DF} {c : String} :
    c ∈ (dropCols df).cols ↔ c ∈ df.cols ∧ c ∉ columns_to_drop := by
  simp [dropCols, List.mem_filter]

theorem identityCol_mem_dropCols {df : DF} :
    identityCol ∈ (dropCols df).cols ↔ identityCol ∈ df.cols := by
  rw [mem_dropCols]
  simp [identityCol, columns_to_drop]

theorem identityCol_not_tcol (df : DF) : identityCol ∉ presentTcols df := by
  intro h
  have := (List.mem_filter.mp h).1
  revert this
  decide

theorem mem_otherColsOf {df : DF} {c : String} :
    c ∈ otherColsOf df ↔
      c ∈ (dropCols df).cols ∧ c ∉ presentTcols df ∧ c ≠ identityCol := by
  simp [otherColsOf, List.mem_filter]

theorem otherColsOf_not_tcol {df : DF} {c : String} (h : c ∈ otherColsOf df) :
    c ∉ presentTcols df := (mem_otherColsOf.mp h).2.1

theorem otherColsOf_ne_id {df : DF} {c : String} (h : c ∈ otherColsOf df) :
    c ≠ identityCol := (mem_otherColsOf.mp h).2.2

theorem agg_condition {df : DF}
    (h : ∃ c ∈ df.cols, c ∉ columns_to_drop ∧ c ≠ identityCol) :
    ¬(presentTcols df = [] ∧ otherColsOf df = []) := by
  obtain ⟨c, hc, hcd, hcne⟩ := h
  rintro ⟨ht, ho⟩
  by_cases htc : c ∈ presentTcols df
  · rw [ht] at htc
    simp at htc
  · have : c ∈ otherColsOf df :=
      mem_otherColsOf.mpr ⟨mem_dropCols.mpr ⟨hc, hcd⟩, htc, hcne⟩
    rw [ho] at this
    simp at this

/-! ## Conversion facts -/

theorem keyOf_convertRow (df : DF) (r : Row) :
    keyOf (convertRow (presentTcols df) r) = keyOf r := by
  unfold keyOf convertRow
  rw [if_neg (identityCol_not_tcol df)]

theorem convertRow_tcol {tcols : List String} {c : String} (r : Row)
    (hc : c ∈ tcols) :
    convertRow tcols r c = .num (time_to_seconds (r c)) := if_pos hc

theorem convertRow_other {tcols : List String} {c : String} (r : Row)
    (hc : c ∉ tcols) : convertRow tcols r c = r c := if_neg hc

theorem keys_converted (df : DF) :
    (convertedRows df).map keyOf = (filteredRows df).map keyOf := by
  unfold convertedRows
  rw [List.map_map]
  exact List.map_congr_left (fun r _ => keyOf_convertRow df r)

theorem groupRowsFor_eq (df : DF) (k : Value) :
    groupRowsFor df k = (inputGroup df k).map (convertRow (presentTcols df)) := by
  unfold groupRowsFor convertedRows inputGroup
  rw [List.filter_map]
  exact congrArg (List.map _) (List.filter_congr (fun r _ => by
    simp [Function.comp, keyOf_convertRow df r]))

/-! ## Projections of the aggregated and summary records -/

theorem aggRow_id (df : DF) (k : Value) : aggRow df k identityCol = k :=
  if_pos rfl

theorem aggRow_tcol (df : DF) (k : Value) {c : String}
    (hc : c ∈ presentTcols df) :
    aggRow df k c = .num (inputGroupSum df k c) := by
  have hne : c ≠ identityCol := by
    intro h; exact identityCol_not_tcol df (h ▸ hc)
  unfold aggRow
  rw [if_neg hne, if_pos hc, groupRowsFor_eq, List.map_map]
  unfold inputGroupSum
  congr 1
  exact congrArg List.sum (List.map_congr_left (fun r _ => by
    simp [Function.comp, convertRow_tcol r hc, toQ]))

theorem aggRow_other (df : DF) (k : Value) {c : String}
    (hc : c ∈ otherColsOf df) :
    aggRow df k c = firstNonNa ((inputGroup df k).map (fun r => r c)) := by
  unfold aggRow
  rw [if_neg (otherColsOf_ne_id hc), if_neg (otherColsOf_not_tcol hc),
    if_pos hc, groupRowsFor_eq, List.map_map]
  exact congrArg firstNonNa (List.map_congr_left (fun r _ => by
    simp [Function.comp, convertRow_other r (otherColsOf_not_tcol hc)]))

theorem avgRow_id (df : DF) : avgRowOf df identityCol = .str "Average" :=
  if_pos rfl

theorem avgRow_tcol (df : DF) {c : String} (hc : c ∈ presentTcols df)
    (hk : aggKeys df ≠ []) :
    avgRowOf df c =
      .num ((((aggKeys df).map (fun k => inputGroupSum df k c)).sum) /
        ((aggKeys df).length : ℚ)) := by
  have hne : c ≠ identityCol := by
    intro h; exact identityCol_not_tcol df (h ▸ hc)
  unfold avgRowOf
  rw [if_neg hne, if_pos hc,
    if_neg (fun h0 => hk (List.eq_nil_of_length_eq_zero h0))]
  congr 2
  unfold aggRowsList
  rw [List.map_map]
  exact congrArg List.sum (List.map_congr_left (fun k _ => by
    simp [Function.comp, aggRow_tcol df k hc, toQ]))

theorem avgRow_nonTcol (df : DF) {c : String} (h1 : c ≠ identityCol)
    (h2 : c ∉ presentTcols df) : avgRowOf df c = .na := by
  unfold avgRowOf
  rw [if_neg h1, if_neg h2]

/-! ## The shape of the merged frame -/

theorem merge_eq_agg {df : DF} (hid : identityCol ∈ df.cols)
    (hagg : ∃ c ∈ df.cols, c ∉ columns_to_drop ∧ c ≠ identityCol) :
    merge_excel_files df = .ok (aggregate df) := by
  unfold merge_excel_files
  rw [if_pos (identityCol_mem_dropCols.mpr hid), if_neg (agg_condition hagg)]

theorem mergeRows_eq_agg {df : DF} (hid : identityCol ∈ df.cols)
    (hagg : ∃ c ∈ df.cols, c ∉ columns_to_drop ∧ c ≠ identityCol) :
    mergeRows df = aggRowsList df ++ [avgRowOf df] := by
  unfold mergeRows
  rw [merge_eq_agg hid hagg]
  rfl

/-! ## Group keys: distinctness, membership, order -/

theorem firstOccurrences_mem (v : Value) :
    ∀ l, v ∈ firstOccurrences l ↔ v ∈ l := by
  intro l
  induction l with
  | nil => simp [firstOccurrences]
  | cons k ks ih =>
    simp only [firstOccurrences, List.mem_cons, List.mem_filter,
      decide_eq_true_eq]
    constructor
    · rintro (h | ⟨h, _⟩)
      · exact Or.inl h
      · exact Or.inr (ih.mp h)
    · rintro (h | h)
      · exact Or.inl h
      · by_cases hv : v = k
        · exact Or.inl hv
        · exact Or.inr ⟨ih.mpr h, hv⟩

theorem firstOccurrences_nodup : ∀ l, (firstOccurrences l).Nodup := by
  intro l
  induction l with
  | nil => simp [firstOccurrences]
  | cons k ks ih =>
    refine List.nodup_cons.mpr ⟨?_, ih.filter _⟩
    intro h
    have := (List.mem_filter.mp h).2
    simp at this

theorem aggKeys_perm (df : DF) :
    (aggKeys df).Perm (firstOccurrences ((filteredRows df).map keyOf)) := by
  unfold aggKeys
  rw [keys_converted]
  exact List.perm_insertionSort _ _

theorem aggKeys_nodup (df : DF) : (aggKeys df).Nodup :=
  ((aggKeys_perm df).nodup_iff).mpr (firstOccurrences_nodup _)

theorem aggKeys_mem (df : DF) (v : Value) :
    v ∈ aggKeys df ↔ v ∈ (filteredRows df).map keyOf := by
  rw [(aggKeys_perm df).mem_iff, firstOccurrences_mem]

theorem charListLe_total : ∀ a b, charListLe a b = true ∨ charListLe b a = true := by
  intro a
  induction a with
  | nil => intro b; exact Or.inl rfl
  | cons x xs ih =>
    intro b
    cases b with
    | nil => exact Or.inr rfl
    | cons y ys =>
      simp only [charListLe]
      rcases lt_trichotomy x y with h | h | h
      · left; rw [if_pos h]
      · subst h
        simp only [if_neg (lt_irrefl x)]
        exact ih ys
      · right; rw [if_pos h]

theorem charListLe_trans : ∀ a b c, charListLe a b = true →
    charListLe b c = true → charListLe a c = true := by
  intro a
  induction a with
  | nil => intro b c _ _; rfl
  | cons x xs ih =>
    intro b c hab hbc
    cases b with
    | nil => simp [charListLe] at hab
    | cons y ys =>
      cases c with
      | nil => simp [charListLe] at hbc
      | cons z zs =>
        simp only [charListLe] at hab hbc ⊢
        by_cases hxy : x < y
        · rw [if_pos hxy] at hab
          by_cases hyz : y < z
          · rw [if_pos (lt_trans hxy hyz)]
          · by_cases hzy : z < y
            · rw [if_neg hyz, if_pos hzy] at hbc
              exact absurd hbc (by simp)
            · have : y = z := le_antisymm (not_lt.mp hzy) (not_lt.mp hyz)
              subst this
              rw [if_pos hxy]
        · by_cases hyx : y < x
          · rw [if_neg hxy, if_pos hyx] at hab
            exact absurd hab (by simp)
          · have hxey : x = y := le_antisymm (not_lt.mp hyx) (not_lt.mp hxy)
            subst hxey
            by_cases hyz : x < z
            · rw [if_pos hyz]
            · by_cases hzy : z < x
              · rw [if_neg hyz, if_pos hzy] at hbc
                exact absurd hbc (by simp)
              · rw [if_neg hyz, if_neg hzy] at hbc ⊢
                rw [if_neg hxy, if_neg hxy] at hab
                exact ih ys zs hab hbc

theorem valueLe_total : ∀ a b : Value, valueLe a b = true ∨ valueLe b a = true := by
  intro a b
  cases a with
  | na => exact Or.inl rfl
  | num qa =>
    cases b with
    | na => exact Or.inr rfl
    | num qb => simp [valueLe]; exact le_total qa qb
    | str sb => exact Or.inl rfl
  | str sa =>
    cases b with
    | na => exact Or.inr rfl
    | num qb => exact Or.inr rfl
    | str sb => simp [valueLe]; exact charListLe_total sa.data sb.data

theorem valueLe_trans : ∀ a b c : Value, valueLe a b = true →
    valueLe b c = true → valueLe a c = true := by
  intro a b c hab hbc
  cases a with
  | na => rfl
  | num qa =>
    cases b with
    | na => simp [valueLe] at hab
    | num qb =>
      cases c with
      | na => simp [valueLe] at hbc
      | num qc =>
        simp only [valueLe, decide_eq_true_eq] at hab hbc ⊢
        exact le_trans hab hbc
      | str sc => rfl
    | str sb =>
      cases c with
      | na => simp [valueLe] at hbc
      | num qc => simp [valueLe] at hbc
      | str sc => rfl
  | str sa =>
    cases b with
    | na => simp [valueLe] at hab
    | num qb => simp [valueLe] at hab
    | str sb =>
      cases c with
      | na => simp [valueLe] at hbc
      | num qc => simp [valueLe] at hbc
      | str sc =>
        simp only [valueLe] at hab hbc ⊢
        exact charListLe_trans sa.data sb.data sc.data hab hbc

instance : IsTotal Value (fun a b => valueLe a b = true) := ⟨valueLe_total⟩

instance : IsTrans Value (fun a b => valueLe a b = true) := ⟨valueLe_trans⟩

theorem aggKeys_sorted (df : DF) :
    List.Sorted (fun a b => valueLe a b = true) (aggKeys df) :=
  List.sorted_insertionSort _ _

/-! ## Indexing the merged frame -/

theorem getD_map_lt {α β : Type} (f : α → β) (l : List α)
    (i : Nat) (hi : i < l.length) (d : α) (d' : β) :
    (l.map f).getD i d' = f (l.getD i d) := by
  rw [List.getD_eq_getElem l d hi,
    List.getD_eq_getElem (l.map f) d' (by simpa using hi)]
  exact List.getElem_map f

theorem rowAt_grouped {df : DF} (hid : identityCol ∈ df.cols)
    (hagg : ∃ c ∈ df.cols, c ∉ columns_to_drop ∧ c ≠ identityCol)
    {i : Nat} (hi : i < (aggKeys df).length) :
    rowAt df i = aggRow df ((aggKeys df).getD i .na) := by
  unfold rowAt
  rw [mergeRows_eq_agg hid hagg,
    List.getD_append _ _ _ _ (by simpa [aggRowsList] using hi)]
  exact getD_map_lt _ _ i hi .na emptyRow

theorem rowAt_last {df : DF} (hid : identityCol ∈ df.cols)
    (hagg : ∃ c ∈ df.cols, c ∉ columns_to_drop ∧ c ≠ identityCol) :
    rowAt df (aggKeys df).length = avgRowOf df := by
  unfold rowAt
  rw [mergeRows_eq_agg hid hagg,
    List.getD_append_right _ _ _ _ (le_of_eq (by simp [aggRowsList]))]
  simp [aggRowsList]

theorem mergeRows_length {df : DF} (hid : identityCol ∈ df.cols)
    (hagg : ∃ c ∈ df.cols, c ∉ columns_to_drop ∧ c ≠ identityCol) :
    (mergeRows df).length = (aggKeys df).length + 1 := by
  rw [mergeRows_eq_agg hid hagg]
  simp [aggRowsList]

/-! ## Claim C9: the identity-column guard and the blank-identity filter -/

/-- C9: if the unioned columns do not include `"Collector Name"`, the
pipeline fails with the schema error message and produces no frame;
otherwise it succeeds and every record of the output — grouped records
keyed by surviving identity values, and the `"Average"` record — has a
non-blank identity cell (every null/empty/whitespace-identity record
was removed). -/
theorem C9_schema_guard (df : DF) :
    (identityCol ∉ df.cols →
      merge_excel_files df =
        .error "Collector Name column not found in the data.") ∧
    (identityCol ∈ df.cols →
      (∃ out : DF, merge_excel_files df = .ok out) ∧
      ∀ i < (mergeRows df).length,
        validIdentity (rowAt df i identityCol) = true) := by
  constructor
  · intro hid
    unfold merge_excel_files
    rw [if_neg (fun h => hid (identityCol_mem_dropCols.mp h))]
  · intro hid
    have hid' := identityCol_mem_dropCols.mpr hid
    constructor
    · unfold merge_excel_files
      rw [if_pos hid']
      by_cases hcase : presentTcols df = [] ∧ otherColsOf df = []
      · rw [if_pos hcase]; exact ⟨_, rfl⟩
      · rw [if_neg hcase]; exact ⟨_, rfl⟩
    · intro i hi
      by_cases hcase : presentTcols df = [] ∧ otherColsOf df = []
      · have hrows : mergeRows df = convertedRows df := by
          unfold mergeRows merge_excel_files
          rw [if_pos hid', if_pos hcase]
          rfl
        unfold rowAt
        rw [hrows] at hi ⊢
        have hmem : (convertedRows df).getD i emptyRow ∈ convertedRows df := by
          rw [List.getD_eq_getElem _ _ hi]
          exact List.getElem_mem hi
        obtain ⟨r, hr, hconv⟩ := List.mem_map.mp hmem
        rw [← hconv]
        show validIdentity (keyOf (convertRow (presentTcols df) r)) = true
        rw [keyOf_convertRow]
        exact (List.mem_filter.mp hr).2
      · have hrows : mergeRows df = aggRowsList df ++ [avgRowOf df] := by
          unfold mergeRows merge_excel_files
          rw [if_pos hid', if_neg hcase]
          rfl
        unfold rowAt
        rw [hrows] at hi ⊢
        have hmem : (aggRowsList df ++ [avgRowOf df]).getD i emptyRow ∈
            aggRowsList df ++ [avgRowOf df] := by
          rw [List.getD_eq_getElem _ _ hi]
          exact List.getElem_mem hi
        rcases List.mem_append.mp hmem with hmem | hmem
        · obtain ⟨k, hk, hak⟩ := List.mem_map.mp hmem
          rw [← hak, aggRow_id]
          obtain ⟨r, hr, hkr⟩ := List.mem_map.mp ((aggKeys_mem df k).mp hk)
          rw [← hkr]
          exact (List.mem_filter.mp hr).2
        · rw [List.mem_singleton.mp hmem, avgRow_id]
          decide

/-- The schema-error case: a frame with no `"Collector Name"` column. -/
def dfNoId : DF := ⟨["Name", "Talk Time"], []⟩

/-- A one-record frame with a valid identity. -/
def dfC9 : DF :=
  ⟨[identityCol, "Notes"],
   [fun c => if c = identityCol then .str "A" else .na]⟩

/-- C9 witness: the guard fails `dfNoId` with the exact message, and on
`dfC9` the output's first record has a non-blank identity. -/
theorem C9_schema_guard_witness :
    identityCol ∉ dfNoId.cols ∧
    merge_excel_files dfNoId =
      .error "Collector Name column not found in the data." ∧
    identityCol ∈ dfC9.cols ∧ 0 < (mergeRows dfC9).length ∧
    validIdentity (rowAt dfC9 0 identityCol) = true :=
  ⟨by decide, (C9_schema_guard dfNoId).1 (by decide), by decide, by decide,
    ((C9_schema_guard dfC9).2 (by decide)).2 0 (by decide)⟩

/-! ## Claim C1: per-group aggregation -/

/-- Two records for `"A"`: the first has no `Notes` value, the second
has `"x"`; both have `Talk Time`. -/
def dfC1 : DF :=
  ⟨[identityCol, "Talk Time", "Notes"],
   [fun c => if c = identityCol then .str "A"
      else if c = "Talk Time" then .str "0:01:00" else .na,
    fun c => if c = identityCol then .str "A"
      else if c = "Talk Time" then .str "0:02:00"
      else if c = "Notes" then .str "x" else .na]⟩

/-- C1 counterexample: the claim says a non-duration column keeps the
value from the group's first record and discards later ones; here the
group's first record has a null `Notes` cell, yet the aggregated record
holds the second record's `"x"` — pandas' `agg('first')` takes the first
non-null value, not the first record's value. -/
theorem C1_counterexample :
    ((filteredRows dfC1).getD 0 emptyRow) "Notes" = Value.na ∧
    rowAt dfC1 0 "Notes" = Value.str "x" ∧
    Value.str "x" ≠ Value.na := by decide

/-- C1 amended: the aggregated frame holds one record per distinct
identity-key value of the filtered input (plus the single trailing
summary record): the group keys are exactly the distinct surviving
identity values, without duplicates; each grouped record carries its
key, the sum of the group's canonical durations in every present
duration column, and in every other column the group's first
**non-null** value (null cells are skipped; later records' values are
discarded only once a non-null value has occurred). -/
theorem C1_group_aggregation (df : DF)
    (hid : identityCol ∈ df.cols)
    (hagg : ∃ c ∈ df.cols, c ∉ columns_to_drop ∧ c ≠ identityCol) :
    (mergeRows df).length = (aggKeys df).length + 1 ∧
    (aggKeys df).Nodup ∧
    (∀ v : Value, v ∈ aggKeys df ↔ v ∈ (filteredRows df).map keyOf) ∧
    ∀ i < (aggKeys df).length,
      rowAt df i identityCol = (aggKeys df).getD i .na ∧
      (∀ tc ∈ presentTcols df,
        rowAt df i tc = .num (inputGroupSum df ((aggKeys df).getD i .na) tc)) ∧
      (∀ oc ∈ otherColsOf df,
        rowAt df i oc = firstNonNa
          ((inputGroup df ((aggKeys df).getD i .na)).map (fun r => r oc))) := by
  refine ⟨mergeRows_length hid hagg, aggKeys_nodup df, aggKeys_mem df, ?_⟩
  intro i hi
  have hrow : rowAt df i = aggRow df ((aggKeys df).getD i .na) :=
    rowAt_grouped hid hagg hi
  exact ⟨by rw [hrow, aggRow_id],
    fun tc htc => by rw [hrow, aggRow_tcol df _ htc],
    fun oc hoc => by rw [hrow, aggRow_other df _ hoc]⟩

/-- C1 witness: on `dfC1` the merged frame has one grouped record plus
the summary, keyed as the single distinct key, with the summed
`Talk Time`. -/
theorem C1_group_aggregation_witness :
    identityCol ∈ dfC1.cols ∧ 0 < (aggKeys dfC1).length ∧
    (mergeRows dfC1).length = (aggKeys dfC1).length + 1 ∧
    rowAt dfC1 0 identityCol = (aggKeys dfC1).getD 0 .na ∧
    rowAt dfC1 0 "Talk Time" =
      .num (inputGroupSum dfC1 ((aggKeys dfC1).getD 0 .na) "Talk Time") := by
  have h := C1_group_aggregation dfC1 (by decide)
    ⟨"Talk Time", by decide, by decide⟩
  have h0 := h.2.2.2 0 (by decide)
  exact ⟨by decide, by decide, h.1, h0.1, h0.2.1 "Talk Time" (by decide)⟩

/-! ## Claim C2: the summary record -/

/-- C2: whenever the pipeline aggregates (the identity column and some
other column are present) and at least one group survives, the merged
frame is the grouped records plus exactly one trailing summary record:
its identity is the sentinel `"Average"`, each present duration column
holds the sum of the per-group sums divided by the number of groups,
and every other column is empty. -/
theorem C2_summary_record (df : DF)
    (hid : identityCol ∈ df.cols)
    (hagg : ∃ c ∈ df.cols, c ∉ columns_to_drop ∧ c ≠ identityCol)
    (hkeys : aggKeys df ≠ []) :
    (mergeRows df).length = (aggKeys df).length + 1 ∧
    rowAt df (aggKeys df).length identityCol = .str "Average" ∧
    (∀ tc ∈ presentTcols df,
      rowAt df (aggKeys df).length tc =
        .num ((((aggKeys df).map (fun k => inputGroupSum df k tc)).sum) /
          ((aggKeys df).length : ℚ))) ∧
    (∀ c : String, c ≠ identityCol → c ∉ presentTcols df →
      rowAt df (aggKeys df).length c = .na) := by
  have hlast : rowAt df (aggKeys df).length = avgRowOf df :=
    rowAt_last hid hagg
  exact ⟨mergeRows_length hid hagg,
    by rw [hlast, avgRow_id],
    fun tc htc => by rw [hlast, avgRow_tcol df htc hkeys],
    fun c h1 h2 => by rw [hlast, avgRow_nonTcol df h1 h2]⟩

/-- Two one-record groups, `"Alice"` and `"Bob"`. -/
def dfC2 : DF :=
  ⟨[identityCol, "Talk Time"],
   [fun c => if c = identityCol then .str "Alice"
      else if c = "Talk Time" then .str "0:15:00" else .na,
    fun c => if c = identityCol then .str "Bob"
      else if c = "Talk Time" then .str "0:05:00" else .na]⟩

/-- C2 witness: on `dfC2` the final record is the `"Average"` record and
its `Talk Time` is the mean of the two group sums. -/
theorem C2_summary_record_witness :
    identityCol ∈ dfC2.cols ∧ aggKeys dfC2 ≠ [] ∧
    rowAt dfC2 (aggKeys dfC2).length identityCol = .str "Average" ∧
    rowAt dfC2 (aggKeys dfC2).length "Talk Time" =
      .num ((((aggKeys dfC2).map
        (fun k => inputGroupSum dfC2 k "Talk Time")).sum) /
        ((aggKeys dfC2).length : ℚ)) := by
  have h := C2_summary_record dfC2 (by decide)
    ⟨"Talk Time", by decide, by decide⟩ (by decide)
  exact ⟨by decide, by decide, h.2.1, h.2.2.1 "Talk Time" (by decide)⟩

/-! ## Claim C4: the order of the aggregated records -/

/-- `"B"` appears in the input before `"A"`. -/
def dfC4 : DF :=
  ⟨[identityCol, "Talk Time"],
   [fun c => if c = identityCol then .str "B"
      else if c = "Talk Time" then .str "0:10:00" else .na,
    fun c => if c = identityCol then .str "A"
      else if c = "Talk Time" then .str "0:05:00" else .na]⟩

/-- C4 counterexample: first-encountered group order is `["B", "A"]`,
but the merged frame lists `"A"` first — `groupby` defaults to
`sort=True`, so the aggregated records come out in ascending key order,
not first-encountered order. -/
theorem C4_counterexample :
    firstOccurrences ((filteredRows dfC4).map keyOf) =
      [Value.str "B", Value.str "A"] ∧
    rowAt dfC4 0 identityCol = Value.str "A" ∧
    rowAt dfC4 1 identityCol = Value.str "B" := by decide

/-- C4 amended: the aggregated records (all output records except the
trailing summary) are listed in ascending identity-key order — sorted
by `valueLe`, which on string keys is code-point lexicographic order —
and their keys are exactly the distinct identity values of the filtered
input (a permutation of the first-encountered key list). -/
theorem C4_sorted_keys (df : DF)
    (hid : identityCol ∈ df.cols)
    (hagg : ∃ c ∈ df.cols, c ∉ columns_to_drop ∧ c ≠ identityCol) :
    List.Sorted (fun a b => valueLe a b = true)
      ((mergeRows df).dropLast.map (fun r => r identityCol)) ∧
    ((mergeRows df).dropLast.map (fun r => r identityCol)).Perm
      (firstOccurrences ((filteredRows df).map keyOf)) := by
  have hdl : (mergeRows df).dropLast.map (fun r => r identityCol) =
      aggKeys df := by
    rw [mergeRows_eq_agg hid hagg, List.dropLast_concat]
    unfold aggRowsList
    rw [List.map_map]
    have hmap : List.map ((fun r : Row => r identityCol) ∘ aggRow df)
        (aggKeys df) = List.map (fun k => k) (aggKeys df) :=
      List.map_congr_left (fun k _ => aggRow_id df k)
    rw [hmap]
    simp
  rw [hdl]
  exact ⟨aggKeys_sorted df, aggKeys_perm df⟩

/-- C4 witness: on `dfC4` the grouped keys come out sorted and are a
permutation of the first-encountered keys. -/
theorem C4_sorted_keys_witness :
    identityCol ∈ dfC4.cols ∧
    List.Sorted (fun a b => valueLe a b = true)
      ((mergeRows dfC4).dropLast.map (fun r => r identityCol)) ∧
    ((mergeRows dfC4).dropLast.map (fun r => r identityCol)).Perm
      (firstOccurrences ((filteredRows dfC4).map keyOf)) := by
  have h := C4_sorted_keys dfC4 (by decide) ⟨"Talk Time", by decide, by decide⟩
  exact ⟨by decide, h.1, h.2⟩

/-! ## Claim C6: behaviour without duration columns -/

/-- Only the identity column, with a duplicated key. -/
def dfC6 : DF :=
  ⟨[identityCol],
   [fun c => if c = identityCol then .str "X" else .na,
    fun c => if c = identityCol then .str "X" else .na]⟩

/-- C6 counterexample: with no duration columns present the claim
promises a one-row-per-identity passthrough, but when the identity
column is the only column `agg_dict` is empty and the filtered frame is
returned as is: two records survive for the single distinct key. -/
theorem C6_counterexample :
    presentTcols dfC6 = [] ∧
    (mergeRows dfC6).length = 2 ∧
    (firstOccurrences ((filteredRows dfC6).map keyOf)).length = 1 := by
  decide

/-- C6 amended: with no duration columns present the outcome splits on
whether any other non-identity column exists. If none does (`agg_dict`
empty), the filtered frame is returned unchanged — duplicates kept, no
summary record. Otherwise the frame is still grouped one-record-per-key
(first non-null value per column) and an `"Average"` record with every
non-identity column empty is appended. -/
theorem C6_no_duration_columns (df : DF)
    (hid : identityCol ∈ df.cols)
    (hnt : presentTcols df = []) :
    (otherColsOf df = [] →
      merge_excel_files df = .ok ⟨(dropCols df).cols, filteredRows df⟩) ∧
    (otherColsOf df ≠ [] →
      (mergeRows df).length = (aggKeys df).length + 1 ∧
      rowAt df (aggKeys df).length identityCol = .str "Average" ∧
      (∀ c : String, c ≠ identityCol →
        rowAt df (aggKeys df).length c = .na) ∧
      ∀ i < (aggKeys df).length,
        rowAt df i identityCol = (aggKeys df).getD i .na ∧
        ∀ oc ∈ otherColsOf df,
          rowAt df i oc = firstNonNa
            ((inputGroup df ((aggKeys df).getD i .na)).map (fun r => r oc))) := by
  constructor
  · intro ho
    have hrows : convertedRows df = filteredRows df := by
      unfold convertedRows
      rw [hnt]
      have hcr : ∀ r : Row, convertRow [] r = r :=
        fun r => funext (fun c => if_neg (List.not_mem_nil c))
      rw [List.map_congr_left (fun r _ => hcr r)]
      simp
    unfold merge_excel_files
    rw [if_pos (identityCol_mem_dropCols.mpr hid), if_pos ⟨hnt, ho⟩, hrows]
  · intro ho
    have hagg : ∃ c ∈ df.cols, c ∉ columns_to_drop ∧ c ≠ identityCol := by
      obtain ⟨c, hc⟩ := List.exists_mem_of_ne_nil _ ho
      have h' := mem_otherColsOf.mp hc
      exact ⟨c, (mem_dropCols.mp h'.1).1, (mem_dropCols.mp h'.1).2, h'.2.2⟩
    refine ⟨mergeRows_length hid hagg,
      by rw [rowAt_last hid hagg, avgRow_id],
      fun c h1 => by
        rw [rowAt_last hid hagg, avgRow_nonTcol df h1 (by rw [hnt]; simp)],
      fun i hi => ?_⟩
    have hrow := rowAt_grouped hid hagg hi
    exact ⟨by rw [hrow, aggRow_id],
      fun oc hoc => by rw [hrow, aggRow_other df _ hoc]⟩

/-- Identity column only: the empty-`agg_dict` branch. -/
def dfC6a : DF :=
  ⟨[identityCol], [fun c => if c = identityCol then .str "Z" else .na]⟩

/-- Identity plus one passthrough column: the grouped branch. -/
def dfC6b : DF :=
  ⟨[identityCol, "Notes"],
   [fun c => if c = identityCol then .str "Z"
      else if c = "Notes" then .str "ok" else .na]⟩

/-- C6 witness: both branches at concrete frames — `dfC6a` passes
through unchanged, `dfC6b` still gets an `"Average"` record. -/
theorem C6_no_duration_columns_witness :
    presentTcols dfC6a = [] ∧ otherColsOf dfC6a = [] ∧
    merge_excel_files dfC6a = .ok ⟨(dropCols dfC6a).cols, filteredRows dfC6a⟩ ∧
    presentTcols dfC6b = [] ∧ otherColsOf dfC6b ≠ [] ∧
    rowAt dfC6b (aggKeys dfC6b).length identityCol = .str "Average" := by
  refine ⟨by decide, by decide,
    (C6_no_duration_columns dfC6a (by decide) (by decide)).1 (by decide),
    by decide, by decide,
    ((C6_no_duration_columns dfC6b (by decide) (by decide)).2 (by decide)).2.1⟩
